import Mathlib

/-!
Verification of gokrazy-cmdgroup: a supervisor that runs several instances
of one external command. The Lean definitions below embed the Go source
(group.go, parse.go) shallowly: pure functions become Lean functions,
the Go error values become the inductive `GoError`, and the stateful
instance/group run loops become functions over explicit traces of
per-round outcomes.
-/

namespace Cmdgroup

/-- Model of a Go `error` value as it can reach `checkErr` / `Instance.Run`:
`context.Canceled`, `context.DeadlineExceeded`, an `exec.ExitError` carrying
an optional `syscall.WaitStatus` (the `Sys()` type assertion can fail), a
plain error, or an error wrapping another one (`fmt.Errorf("...: %w", err)`),
which `errors.Is` / `errors.As` unwrap. -/
inductive GoError where
  | canceled
  | deadlineExceeded
  | exitError (waitStatus : Option Nat)
  | other (msg : String)
  | wrap (msg : String) (inner : GoError)
deriving Repr, DecidableEq

/-- Model of `errors.Is(err, context.Canceled)`: true when the unwrap chain reaches
`context.Canceled`. -/
def isCanceled : GoError → Bool
  | .canceled => true
  | .wrap _ e => isCanceled e
  | _ => false

/-- Model of `errors.As(err, &exitErr)`: the first `exec.ExitError` in the unwrap
chain, as its optional `syscall.WaitStatus`. -/
def asExitError : GoError → Option (Option Nat)
  | .exitError ws => some ws
  | .wrap _ e => asExitError e
  | _ => none

/-- The value of `syscall.SIGTERM` on Linux. -/
def SIGTERM : Int := 15

/-- The low seven bits of a wait status (`mask = 0x7F` in Go's syscall
package for Linux). -/
def wsMask : Nat := 0x7F

/-- Model of `syscall.WaitStatus.Signaled` (Linux): the masked status is neither
`stopped` (0x7F) nor `exited` (0x00). -/
def wsSignaled (w : Nat) : Bool :=
  w &&& wsMask != 0x7F && w &&& wsMask != 0

/-- Model of `syscall.WaitStatus.Signal` (Linux): `-1` when not signaled, otherwise
the masked status. -/
def wsSignal (w : Nat) : Int :=
  if wsSignaled w then ((w &&& wsMask : Nat) : Int) else -1

/-- Model of `syscall.WaitStatus.ExitStatus` (Linux): `-1` when not exited, otherwise
the status shifted right by 8. -/
def wsExitStatus (w : Nat) : Int :=
  if w &&& wsMask != 0 then -1 else ((w >>> 8 : Nat) : Int)

/-- Translation of `checkErr` (group.go): filters out expected termination errors.
`nil` stays `nil`; an error matching `context.Canceled` becomes `nil`;
a non-`ExitError` passes through; an `ExitError` without a decodable
wait status passes through; an `ExitError` whose wait status is not a
SIGTERM kill passes through; a SIGTERM kill becomes `nil`. -/
def checkErr : Option GoError → Option GoError
  | none => none
  | some err =>
    if isCanceled err then none
    else
      match asExitError err with
      | none => some err
      | some none => some err
      | some (some ws) =>
        if !wsSignaled ws || wsSignal ws != SIGTERM then some err else none

/-- Claim C3: the exit classifier maps nil to nil, context-cancellation
errors to nil, SIGTERM-signaled exits to nil, and passes every other
input through unchanged: plain non-exit errors, exit errors without a
wait status, non-signaled exits (any exit code), and exits by any other
signal. -/
theorem checkErr_classification :
    checkErr none = none ∧
    (∀ e, isCanceled e = true → checkErr (some e) = none) ∧
    (∀ e ws, asExitError e = some (some ws) → isCanceled e = false →
      wsSignaled ws = true → wsSignal ws = SIGTERM → checkErr (some e) = none) ∧
    (∀ m, checkErr (some (.other m)) = some (.other m)) ∧
    (∀ e, isCanceled e = false → asExitError e = none → checkErr (some e) = some e) ∧
    (∀ e, isCanceled e = false → asExitError e = some none → checkErr (some e) = some e) ∧
    (∀ e ws, isCanceled e = false → asExitError e = some (some ws) →
      wsSignaled ws = false → checkErr (some e) = some e) ∧
    (∀ e ws, isCanceled e = false → asExitError e = some (some ws) →
      wsSignaled ws = true → wsSignal ws ≠ SIGTERM → checkErr (some e) = some e) := by
  refine ⟨rfl, ?_, ?_, ?_, ?_, ?_, ?_, ?_⟩
  · intro e he
    simp [checkErr, he]
  · intro e ws hws hc hsig hterm
    simp [checkErr, hc, hws, hsig, hterm]
  · intro m
    simp [checkErr, isCanceled, asExitError]
  · intro e hc hex
    simp [checkErr, hc, hex]
  · intro e hc hex
    simp [checkErr, hc, hex]
  · intro e ws hc hex hsig
    simp [checkErr, hc, hex, hsig]
  · intro e ws hc hex hsig hterm
    simp [checkErr, hc, hex, hsig, hterm]

/-- Concrete instantiation of `checkErr_classification`: a SIGTERM kill
(wait status 15) is filtered to nil, a SIGKILL (wait status 9) and an
exit with code 1 (wait status 256) pass through, and a context
cancellation is filtered. -/
theorem checkErr_classification_witness :
    checkErr (some .canceled) = none ∧
    checkErr (some (.exitError (some 15))) = none ∧
    checkErr (some (.exitError (some 9))) = some (.exitError (some 9)) ∧
    checkErr (some (.exitError (some 256))) = some (.exitError (some 256)) := by
  refine ⟨?_, ?_, ?_, ?_⟩
  · exact checkErr_classification.2.1 .canceled (by decide)
  · exact checkErr_classification.2.2.1 (.exitError (some 15)) 15 (by decide)
      (by decide) (by decide) (by decide)
  · exact checkErr_classification.2.2.2.2.2.2.2 (.exitError (some 9)) 9 (by decide)
      (by decide) (by decide) (by decide)
  · exact checkErr_classification.2.2.2.2.2.2.1 (.exitError (some 256)) 256 (by decide)
      (by decide) (by decide)

/-! ## Parsing layer (parse.go) -/

/-- Model of `unicode.IsSpace` restricted to the code points Go treats as white
space: '\t' through '\r', ' ', U+0085, U+00A0, and the Unicode
White_Space code points. -/
def goIsSpace (c : Char) : Bool :=
  let n := c.toNat
  (9 ≤ n && n ≤ 13) || n = 32 || n = 0x85 || n = 0xA0 ||
  n = 0x1680 || (0x2000 ≤ n && n ≤ 0x200A) || n = 0x2028 || n = 0x2029 ||
  n = 0x202F || n = 0x205F || n = 0x3000

/-- Model of `strings.TrimSpace`: drop white space from both ends. -/
def trimSpace (s : String) : String :=
  ⟨((s.data.dropWhile goIsSpace).reverse.dropWhile goIsSpace).reverse⟩

/-- Decimal digit accumulator used by `atoi`. -/
def parseDigitsAux (acc : Nat) : List Char → Option Nat
  | [] => some acc
  | c :: cs => if c.isDigit then parseDigitsAux (acc * 10 + (c.toNat - 48)) cs else none

/-- Parse a non-empty run of decimal digits; `none` on an empty list or any
non-digit character. -/
def parseDigits : List Char → Option Nat
  | [] => none
  | cs => parseDigitsAux 0 cs

/-- The `%q` quoting used in `strconv` error messages (escape sequences
inside the token are not modelled). -/
def goQuote (s : String) : String :=
  "\"" ++ s ++ "\""

/-- Model of `strconv.Atoi`: an optional sign followed by at least one decimal
digit, rejected when the value falls outside the 64-bit int range. -/
def atoi (s : String) : Except String Int :=
  let core : Option Int :=
    match s.data with
    | [] => none
    | '+' :: ds => (parseDigits ds).map (fun n => (n : Int))
    | '-' :: ds => (parseDigits ds).map (fun n => -(n : Int))
    | ds => (parseDigits ds).map (fun n => (n : Int))
  match core with
  | none => .error ("strconv.Atoi: parsing " ++ goQuote s ++ ": invalid syntax")
  | some n =>
    if n < -(2 ^ 63) || 2 ^ 63 - 1 < n then
      .error ("strconv.Atoi: parsing " ++ goQuote s ++ ": value out of range")
    else .ok n

/-- Character-level worker for `splitComma`: `acc` holds the current
part's characters in reverse, mirroring the `start`/`end` cursor of Go's
split loop. -/
def splitCommaChars (acc : List Char) : List Char → List String
  | [] => [⟨acc.reverse⟩]
  | c :: cs =>
    if c = ',' then ⟨acc.reverse⟩ :: splitCommaChars [] cs
    else splitCommaChars (c :: acc) cs

/-- Model of `strings.SplitSeq(s, ",")` collected to a list. -/
def splitComma (s : String) : List String :=
  splitCommaChars [] s.data

/-- The loop body of `parseInts` (parse.go) over the comma-separated
parts: trim each part, skip blanks, `Atoi` the rest, abort on the first
parse failure. -/
def parseIntsList : List String → Except String (List Int)
  | [] => .ok []
  | part :: parts =>
    let t := trimSpace part
    if t = "" then parseIntsList parts
    else
      match atoi t with
      | .error e => .error ("parse int: " ++ e)
      | .ok n => do
          let rest ← parseIntsList parts
          pure (n :: rest)

/-- Translation of `parseInts` (parse.go): parse a comma-separated list of integers. -/
def parseInts (s : String) : Except String (List Int) :=
  parseIntsList (splitComma s)

/-- Translation of `slicesSplitSeq` (parse.go) collected to a list: split a slice around
the separator element, like `strings.SplitSeq` on slices. -/
def slicesSplitSeq {E : Type} [DecidableEq E] : List E → E → List (List E)
  | [], _ => [[]]
  | v :: rest, sep =>
    if v = sep then [] :: slicesSplitSeq rest sep
    else
      match slicesSplitSeq rest sep with
      | [] => [[v]]
      | seg :: segs => (v :: seg) :: segs

/-- Translation of `parseArgs` (parse.go): split arguments into sections on `"--"`
delimiters. -/
def parseArgs (args : List String) : List (List String) :=
  slicesSplitSeq args "--"

/-! ## Group construction (group.go) -/

/-- Translation of `Instance` (group.go): one command execution. The `Logger` handle is
not modelled; whether the caller supplied a nil logger is threaded
separately through `New`. -/
structure Instance where
  Name : String
  Args : List String
  Watch : Bool
deriving Repr, DecidableEq

/-- Translation of `Group` (group.go): the managed collection of instances. -/
structure Group where
  Instances : List Instance
deriving Repr, DecidableEq

/-- The instance-building section of `New` (group.go): the first parsed
section is the global argument list; each later section yields one
instance with `globalArgs ++ section`; with no later section, a single
instance receives the global arguments. -/
def buildInstances (path : String) (args : List String) : List Instance :=
  let sections := parseArgs args
  let globalArgs := sections.headD []
  let instances := sections.tail.map
    (fun a => { Name := path, Args := globalArgs ++ a, Watch := false : Instance })
  if instances.isEmpty then [{ Name := path, Args := globalArgs, Watch := false }]
  else instances

/-- Set the watch flag of the instance at the given position
(`instances[index].Watch = true`). -/
def setWatchTrue : List Instance → Nat → List Instance
  | [], _ => []
  | inst :: rest, 0 => { inst with Watch := true } :: rest
  | inst :: rest, n + 1 => inst :: setWatchTrue rest n

/-- The index loop of `applyWatch` (group.go): reject an index outside
`[0, len)` with a range error, otherwise mark the instance watched. -/
def applyWatchLoop : List Instance → List Int → Except String (List Instance)
  | instances, [] => .ok instances
  | instances, index :: rest =>
    if index < 0 ∨ (instances.length : Int) ≤ index then
      .error ("parse watch: index out of range: " ++ toString index)
    else applyWatchLoop (setWatchTrue instances index.toNat) rest

/-- Translation of `applyWatch` (group.go): `""`/`"none"` mark nothing, `"all"` marks
every instance, anything else is parsed by `parseInts` and applied
index by index. -/
def applyWatch (instances : List Instance) (watch : String) :
    Except String (List Instance) :=
  if watch = "" ∨ watch = "none" then .ok instances
  else if watch = "all" then
    .ok (instances.map (fun inst => { inst with Watch := true }))
  else
    match parseInts watch with
    | .error e => .error ("parse watch: " ++ e)
    | .ok indexes => applyWatchLoop instances indexes

/-- Translation of `New` (group.go). `loggerNil` reflects whether the effective logger
option is nil; `lookPath` is the outcome of `exec.LookPath` on the
command name (an external effect, passed in as data). -/
def New (loggerNil : Bool) (lookPath : Except String String)
    (args : List String) (watch : String) : Except String Group :=
  if loggerNil then .error "nil logger"
  else
    match lookPath with
    | .error e => .error ("look path: " ++ e)
    | .ok path =>
      match applyWatch (buildInstances path args) watch with
      | .error e => .error e
      | .ok instances => .ok { Instances := instances }

deriving instance DecidableEq for Except

/-- Claim C1 (counterexample): for command resolved to `/bin/echo`,
arguments `["a","-flag","--","b"]` and watch `"none"`, construction does
NOT produce the two instances `["a","-flag"]` and `["a","-flag","b"]`
that the claim states. -/
theorem new_echo_two_instances_counterexample :
    New false (.ok "/bin/echo") ["a", "-flag", "--", "b"] "none" ≠
      .ok { Instances := [
        { Name := "/bin/echo", Args := ["a", "-flag"], Watch := false },
        { Name := "/bin/echo", Args := ["a", "-flag", "b"], Watch := false }] } := by
  decide

/-- Claim C1 (amended): for command resolved to `/bin/echo`, arguments
`["a","-flag","--","b"]` and watch `"none"`, construction succeeds and
produces exactly ONE instance, whose argument sequence is the global
prefix `["a","-flag"]` concatenated with the suffix `["b"]`; the section
before the delimiter is only a prefix, not an instance of its own. -/
theorem new_echo_single_instance :
    New false (.ok "/bin/echo") ["a", "-flag", "--", "b"] "none" =
      .ok { Instances := [
        { Name := "/bin/echo", Args := ["a", "-flag", "b"], Watch := false }] } := by
  decide

/-- Splitting a list that does not contain the separator yields the whole
list as the only section. -/
theorem slicesSplitSeq_eq_of_not_mem {E : Type} [DecidableEq E]
    (s : List E) (sep : E) (h : sep ∉ s) : slicesSplitSeq s sep = [s] := by
  induction s with
  | nil => rfl
  | cons v rest ih =>
    have hv : ¬ v = sep := fun hv => h (hv ▸ List.mem_cons_self v rest)
    have hrest : sep ∉ rest := fun hm => h (List.mem_cons_of_mem v hm)
    simp [slicesSplitSeq, hv, ih hrest]

/-- Claim C5: when the argument list contains no `"--"` delimiter
(including the empty list), construction yields exactly one instance and
that instance's argument sequence is the entire input list. -/
theorem new_no_delimiter_single_instance (path : String) (args : List String)
    (h : "--" ∉ args) :
    buildInstances path args = [{ Name := path, Args := args, Watch := false }] ∧
    New false (.ok path) args "none" =
      .ok { Instances := [{ Name := path, Args := args, Watch := false }] } := by
  constructor <;>
    simp [New, applyWatch, buildInstances, parseArgs,
      slicesSplitSeq_eq_of_not_mem args "--" h]

/-- Concrete instantiation of `new_no_delimiter_single_instance` at a
two-element argument list and at the empty list. -/
theorem new_no_delimiter_single_instance_witness :
    New false (.ok "/bin/echo") ["x", "y"] "none" =
      .ok { Instances := [{ Name := "/bin/echo", Args := ["x", "y"], Watch := false }] } ∧
    New false (.ok "/bin/echo") [] "none" =
      .ok { Instances := [{ Name := "/bin/echo", Args := [], Watch := false }] } :=
  ⟨(new_no_delimiter_single_instance "/bin/echo" ["x", "y"] (by decide)).2,
   (new_no_delimiter_single_instance "/bin/echo" [] (by decide)).2⟩

/-- Claim C9: the literals `"all"` and `"none"` are matched exactly;
with surrounding whitespace the specification falls through to the
integer-list parser and construction fails with a parse error, for every
instance list and every resolved command. -/
theorem watch_literal_requires_exact_match (instances : List Instance)
    (path : String) (args : List String) :
    applyWatch instances " all " =
      .error "parse watch: parse int: strconv.Atoi: parsing \"all\": invalid syntax" ∧
    applyWatch instances " none " =
      .error "parse watch: parse int: strconv.Atoi: parsing \"none\": invalid syntax" ∧
    New false (.ok path) args " all " =
      .error "parse watch: parse int: strconv.Atoi: parsing \"all\": invalid syntax" ∧
    New false (.ok path) args " none " =
      .error "parse watch: parse int: strconv.Atoi: parsing \"none\": invalid syntax" := by
  refine ⟨rfl, rfl, rfl, rfl⟩

/-! ## Instance lifecycle (group.go, `Instance.Run`) -/

/-- The constant `cmdRestartDelay` (group.go): `time.Second`, in nanoseconds — how
long a watched instance waits before restarting. -/
def cmdRestartDelay : Nat := 1000000000

/-- The constant `cmdWaitDelay` (group.go): `10 * time.Second`, in nanoseconds — how
long an instance may keep running after SIGTERM before being killed. -/
def cmdWaitDelay : Nat := 10000000000

/-- One iteration of the `Instance.Run` loop, as observed from outside:
the outcome of `cmd.Start()`, the outcome of `cmd.Wait()` when the start
succeeded, and `ctx.Err()` when the context becomes done before the
restart delay elapses (`none` when the delay timer fires first). -/
structure Round where
  startErr : Option GoError
  waitErr : Option GoError
  ctxErr : Option GoError
deriving Repr, DecidableEq

/-- How one call to `Instance.Run` returns. -/
inductive RunResult where
  | startFailed (e : GoError)
  | finished (e : Option GoError)
  | ctxDone (e : GoError)
  | fuelOut
deriving Repr, DecidableEq

/-- Translation of `Instance.Run` (group.go), driven by a trace of per-round outcomes:
a start failure returns immediately; an unwatched instance returns its
wait result; a watched instance returns the context error when the
context is done at the restart select, and otherwise restarts,
consuming the next round. `fuelOut` marks a trace too short to observe
a return (the watched loop is still running). -/
def instanceRun (watch : Bool) : List Round → RunResult
  | [] => .fuelOut
  | r :: rest =>
    match r.startErr with
    | some e => .startFailed e
    | none =>
      if !watch then .finished r.waitErr
      else
        match r.ctxErr with
        | some ce => .ctxDone ce
        | none => instanceRun watch rest

/-- The error value `Instance.Run` returns for each outcome: start
failures come back wrapped as `fmt.Errorf("start command: %w", err)`,
normal completion returns the wait error, cancellation returns
`ctx.Err()`. -/
def RunResult.retVal : RunResult → Option GoError
  | .startFailed e => some (.wrap "start command" e)
  | .finished e => e
  | .ctxDone e => some e
  | .fuelOut => none

/-- A watched instance never returns through the `finished` path: the
loop only ends by a start failure or by context cancellation. -/
theorem instanceRun_watched_never_finishes (rounds : List Round) (e : Option GoError) :
    instanceRun true rounds ≠ .finished e := by
  induction rounds with
  | nil => simp [instanceRun]
  | cons r rest ih =>
    cases h : r.startErr with
    | some e0 => simp [instanceRun, h]
    | none =>
      cases hc : r.ctxErr with
      | some ce => simp [instanceRun, h, hc]
      | none => simpa [instanceRun, h, hc] using ih

/-- Claim C4: a start failure makes `Instance.Run` return at once with
the distinct wrapped "start command" error, whatever the watch flag and
whatever rounds would have followed — a start failure is never followed
by a restart attempt. -/
theorem instanceRun_start_failure (watch : Bool) (r : Round) (rest : List Round)
    (e : GoError) (h : r.startErr = some e) :
    instanceRun watch (r :: rest) = .startFailed e ∧
    (instanceRun watch (r :: rest)).retVal = some (.wrap "start command" e) := by
  refine ⟨?_, ?_⟩ <;> simp [instanceRun, h, RunResult.retVal]

/-- Concrete instantiation of `instanceRun_start_failure`: a missing
binary fails identically for a watched and an unwatched instance, even
with further rounds available. -/
theorem instanceRun_start_failure_witness :
    instanceRun true
        [{ startErr := some (.other "no such file"), waitErr := none, ctxErr := none },
         { startErr := none, waitErr := none, ctxErr := none }] =
      .startFailed (.other "no such file") ∧
    instanceRun false
        [{ startErr := some (.other "no such file"), waitErr := none, ctxErr := none }] =
      .startFailed (.other "no such file") :=
  ⟨(instanceRun_start_failure true _ _ _ rfl).1,
   (instanceRun_start_failure false _ _ _ rfl).1⟩

/-- Claim C8: the restart delay is one second (`time.Second` in
nanoseconds); after any exit of a started child — successful or not,
the wait error is irrelevant — a watched instance restarts and consumes
the next round when the context is still live, and returns the
context's error without restarting when the context is done; a watched
instance never returns through the normal-completion path. -/
theorem instanceRun_watched_restart (r : Round) (rest : List Round)
    (h : r.startErr = none) :
    cmdRestartDelay = 1000000000 ∧
    (∀ ce, r.ctxErr = some ce → instanceRun true (r :: rest) = .ctxDone ce) ∧
    (r.ctxErr = none → instanceRun true (r :: rest) = instanceRun true rest) ∧
    (∀ e, instanceRun true (r :: rest) ≠ .finished e) := by
  refine ⟨rfl, ?_, ?_, fun e => instanceRun_watched_never_finishes _ e⟩
  · intro ce hce
    simp [instanceRun, h, hce]
  · intro hce
    simp [instanceRun, h, hce]

/-- Concrete instantiation of `instanceRun_watched_restart`: a watched
instance whose child exits with an error restarts into the next round
while the context lives, and stops with the cancellation cause when the
context is done. -/
theorem instanceRun_watched_restart_witness :
    instanceRun true
        [{ startErr := none, waitErr := some (.exitError (some 256)), ctxErr := none },
         { startErr := none, waitErr := none, ctxErr := some .canceled }] =
      .ctxDone .canceled := by
  have h1 := instanceRun_watched_restart
    { startErr := none, waitErr := some (.exitError (some 256)), ctxErr := none }
    [{ startErr := none, waitErr := none, ctxErr := some .canceled }] rfl
  have h2 := instanceRun_watched_restart
    { startErr := none, waitErr := none, ctxErr := some .canceled } [] rfl
  rw [h1.2.2.1 rfl, h2.2.1 .canceled rfl]

/-! ## Group fan-out and cancellation policy (group.go, `Group.Run`) -/

/-- The cancellation decision of the per-instance worker in `Group.Run`
(group.go): `errs[idx] != nil && !instance.Watch`. -/
def workerCancels (inst : Instance) (runErr : Option GoError) : Bool :=
  (checkErr runErr).isSome && !inst.Watch

/-- The cause passed to `cancel` by the worker: the classified error
when the worker cancels, nothing otherwise. -/
def workerCancelCause (inst : Instance) (runErr : Option GoError) : Option GoError :=
  if workerCancels inst runErr then checkErr runErr else none

/-- Claim C2: a worker cancels the shared context exactly when its
instance is unwatched and its classified error is non-nil, and then the
cause is that classified error; a watched instance's failure never
cancels; and once the shared context is done a watched instance performs
no further restart (it returns the context error at the restart select). -/
theorem group_cancellation_policy :
    (∀ (inst : Instance) (runErr : Option GoError),
      workerCancels inst runErr = true ↔ (checkErr runErr ≠ none ∧ inst.Watch = false)) ∧
    (∀ (inst : Instance) (runErr : Option GoError),
      inst.Watch = true → workerCancels inst runErr = false) ∧
    (∀ (inst : Instance) (runErr : Option GoError),
      workerCancels inst runErr = true → workerCancelCause inst runErr = checkErr runErr) ∧
    (∀ (r : Round) (rest : List Round) (ce : GoError),
      r.startErr = none → r.ctxErr = some ce → instanceRun true (r :: rest) = .ctxDone ce) := by
  refine ⟨?_, ?_, ?_, ?_⟩
  · intro inst runErr
    cases h : checkErr runErr <;> simp [workerCancels, h, Option.isSome]
  · intro inst runErr hw
    simp [workerCancels, hw]
  · intro inst runErr hc
    simp [workerCancelCause, hc]
  · intro r rest ce h hce
    simp [instanceRun, h, hce]

/-- Concrete instantiation of `group_cancellation_policy`: an unwatched
instance exiting with code 1 cancels with that classified error as
cause; the same failure on a watched instance does not cancel. -/
theorem group_cancellation_policy_witness :
    workerCancels { Name := "c", Args := [], Watch := false }
        (some (.exitError (some 256))) = true ∧
    workerCancelCause { Name := "c", Args := [], Watch := false }
        (some (.exitError (some 256))) = some (.exitError (some 256)) ∧
    workerCancels { Name := "c", Args := [], Watch := true }
        (some (.exitError (some 256))) = false := by
  refine ⟨?_, ?_, ?_⟩
  · exact (group_cancellation_policy.1 _ _).2 ⟨by decide, rfl⟩
  · have h := group_cancellation_policy.2.2.1
      { Name := "c", Args := [], Watch := false } (some (.exitError (some 256)))
      (by decide)
    simpa using h
  · exact group_cancellation_policy.2.1 _ _ rfl

/-- Model of `errors.Join`: nil when every argument is nil, otherwise the
non-nil errors in argument order. -/
def errorsJoin (errs : List (Option GoError)) : Option (List GoError) :=
  match errs.filterMap id with
  | [] => none
  | es => some es

/-- The value `Group.Run` (group.go) returns: slot `idx` of the `errs`
array holds the classified error of instance `idx`, and after the
`wg.Wait` barrier the slots are joined in index order. -/
def groupRunResult (rawResults : List (Option GoError)) : Option (List GoError) :=
  errorsJoin (rawResults.map checkErr)

/-- The `errs` array of `Group.Run` as a map from instance index to
slot content, built up from completion events `(idx, classified error)`
in the order the workers happen to finish. -/
def writeSlots (events : List (Nat × Option GoError)) : Nat → Option GoError :=
  events.foldl (fun errs ev => Function.update errs ev.1 ev.2) (fun _ => none)

/-- Folding completion events leaves a slot no event writes unchanged. -/
theorem foldWrite_not_mem (events : List (Nat × Option GoError))
    (f : Nat → Option GoError) (i : Nat) (h : ∀ ev ∈ events, ev.1 ≠ i) :
    events.foldl (fun errs ev => Function.update errs ev.1 ev.2) f i = f i := by
  induction events generalizing f with
  | nil => rfl
  | cons ev tl ih =>
    have hne : ev.1 ≠ i := h ev (List.mem_cons_self ev tl)
    have htl : ∀ e ∈ tl, e.1 ≠ i := fun e he => h e (List.mem_cons_of_mem ev he)
    simp only [List.foldl_cons, ih _ htl, Function.update]
    simp [Ne.symm hne]

/-- When each index is written at most once, the slot of a written index
holds the written value, in whatever order the events arrive. -/
theorem foldWrite_unique (events : List (Nat × Option GoError))
    (f : Nat → Option GoError) (i : Nat) (v : Option GoError)
    (hv : (i, v) ∈ events) (hnd : (events.map Prod.fst).Nodup) :
    events.foldl (fun errs ev => Function.update errs ev.1 ev.2) f i = v := by
  induction events generalizing f with
  | nil => cases hv
  | cons ev tl ih =>
    rw [List.map_cons, List.nodup_cons] at hnd
    obtain ⟨hhead, htail⟩ := hnd
    rcases List.mem_cons.mp hv with heq | htl
    · have hnotin : ∀ e ∈ tl, e.1 ≠ i := by
        intro e he hei
        exact hhead (by simpa [← heq, hei] using List.mem_map_of_mem Prod.fst he)
      rw [List.foldl_cons, foldWrite_not_mem tl _ i hnotin, ← heq]
      simp [Function.update]
    · rw [List.foldl_cons]
      exact ih _ htl htail

/-- Claim C7: however the workers' completions interleave (any
permutation of the per-index completion events), every slot ends up
holding its own instance's classified error, the aggregate joins the
non-nil classified errors in instance index order, and the aggregate is
nil exactly when every instance's classified error is nil; the
aggregate consumes one completion event per instance, so it is only
formed after every worker has finished. -/
theorem groupRun_aggregation :
    (∀ (raw : List (Option GoError)) (events : List (Nat × Option GoError)),
      events.Perm (raw.map checkErr).enum →
      (∀ (i : Nat) (h : i < raw.length),
          writeSlots events i = checkErr (raw.get ⟨i, h⟩)) ∧
      errorsJoin ((List.range raw.length).map (writeSlots events)) = groupRunResult raw) ∧
    (∀ raw : List (Option GoError),
      groupRunResult raw = none ↔ ∀ e ∈ raw, checkErr e = none) := by
  constructor
  · intro raw events hperm
    have hnd : (events.map Prod.fst).Nodup := by
      have h1 : (events.map Prod.fst).Perm ((raw.map checkErr).enum.map Prod.fst) :=
        hperm.map Prod.fst
      exact (List.Perm.nodup_iff h1).mpr (List.nodup_enum_map_fst _)
    have hslot : ∀ (i : Nat) (h : i < raw.length),
        writeSlots events i = checkErr (raw.get ⟨i, h⟩) := by
      intro i h
      have hmem : (i, checkErr (raw.get ⟨i, h⟩)) ∈ (raw.map checkErr).enum := by
        rw [List.mk_mem_enum_iff_getElem?]
        simp [List.getElem?_map, List.getElem?_eq_getElem h]
      exact foldWrite_unique events _ i _ (hperm.mem_iff.mpr hmem) hnd
    refine ⟨hslot, ?_⟩
    have hmap : (List.range raw.length).map (writeSlots events) = raw.map checkErr := by
      apply List.ext_get (by simp)
      intro i h1 h2
      have hi : i < raw.length := by simpa using h2
      simp only [List.get_eq_getElem, List.getElem_map, List.getElem_range]
      simpa using hslot i hi
    rw [hmap, groupRunResult]
  · intro raw
    have key : (raw.map checkErr).filterMap id = [] ↔ ∀ e ∈ raw, checkErr e = none := by
      rw [List.filterMap_eq_nil_iff]
      constructor
      · intro h e he
        simpa using h (checkErr e) (List.mem_map_of_mem checkErr he)
      · intro h a ha
        rcases List.mem_map.mp ha with ⟨e, he, rfl⟩
        simpa using h e he
    unfold groupRunResult errorsJoin
    cases hf : (raw.map checkErr).filterMap id with
    | nil =>
      simp only [hf]
      simpa using key.mp hf
    | cons x xs =>
      have hne : ¬ ∀ e ∈ raw, checkErr e = none := fun hall => by
        simp [key.mpr hall] at hf
      simp [hf, hne]

/-- Concrete instantiation of `groupRun_aggregation`: with instance 0
failing (exit code 1) and instance 1 succeeding, and the workers
completing in the order 1 then 0, the slots still hold the classified
errors by index and the aggregate is the index-ordered singleton join. -/
theorem groupRun_aggregation_witness :
    writeSlots [(1, none), (0, some (.exitError (some 256)))] 0 =
        some (.exitError (some 256)) ∧
    errorsJoin ((List.range 2).map
        (writeSlots [(1, none), (0, some (.exitError (some 256)))])) =
      some [.exitError (some 256)] := by
  have h := (groupRun_aggregation.1 [some (.exitError (some 256)), none]
    [(1, none), (0, some (.exitError (some 256)))] (by decide))
  refine ⟨?_, ?_⟩
  · have := h.1 0 (by decide)
    simpa using this
  · have := h.2
    rw [show ([some (GoError.exitError (some 256)), none].length) = 2 by decide] at this
    rw [this]
    decide

/-! ## Watch-set resolution lemmas -/

/-- Marking an instance watched keeps the instance count. -/
theorem setWatchTrue_length (l : List Instance) (n : Nat) :
    (setWatchTrue l n).length = l.length := by
  induction l generalizing n with
  | nil => rfl
  | cons inst rest ih =>
    cases n with
    | zero => rfl
    | succ m => simp [setWatchTrue, ih]

/-- Element-wise description of `setWatchTrue`. -/
theorem setWatchTrue_getElem? (l : List Instance) (n j : Nat) :
    (setWatchTrue l n)[j]? =
      (l[j]?).map (fun inst => if j = n then { inst with Watch := true } else inst) := by
  induction l generalizing n j with
  | nil => simp [setWatchTrue]
  | cons inst rest ih =>
    cases n with
    | zero =>
      cases j with
      | zero => simp [setWatchTrue]
      | succ j0 => simp [setWatchTrue]
    | succ m =>
      cases j with
      | zero => simp [setWatchTrue]
      | succ j0 => simp [setWatchTrue, ih m j0]

/-- The index loop of `applyWatch` stripped of its range check: mark
each listed index in turn. -/
def markWatched (instances : List Instance) : List Int → List Instance
  | [] => instances
  | i :: rest => markWatched (setWatchTrue instances i.toNat) rest

/-- When every index is in range the loop succeeds and equals the pure
marking pass. -/
theorem applyWatchLoop_ok (idxs : List Int) (instances : List Instance)
    (h : ∀ i ∈ idxs, 0 ≤ i ∧ i < (instances.length : Int)) :
    applyWatchLoop instances idxs = .ok (markWatched instances idxs) := by
  induction idxs generalizing instances with
  | nil => rfl
  | cons i rest ih =>
    have hi := h i (List.mem_cons_self i rest)
    have hcond : ¬ (i < 0 ∨ (instances.length : Int) ≤ i) := by omega
    have hrest : ∀ x ∈ rest, 0 ≤ x ∧ x < ((setWatchTrue instances i.toNat).length : Int) := by
      intro x hx
      rw [setWatchTrue_length]
      exact h x (List.mem_cons_of_mem i hx)
    simp [applyWatchLoop, hcond, markWatched, ih _ hrest]

/-- The marking pass depends only on membership in the index list: an
instance ends up watched exactly when its position is listed (after
`Int.toNat` conversion), no matter how often. -/
theorem markWatched_getElem? (idxs : List Int) (instances : List Instance) (j : Nat) :
    (markWatched instances idxs)[j]? =
      (instances[j]?).map
        (fun inst => if j ∈ idxs.map Int.toNat then { inst with Watch := true } else inst) := by
  induction idxs generalizing instances with
  | nil =>
    cases h : instances[j]? <;> simp [markWatched, h]
  | cons i rest ih =>
    rw [markWatched, ih, setWatchTrue_getElem?]
    cases h : instances[j]? with
    | none => simp
    | some inst =>
      simp only [Option.map_some, Option.map_map, List.map_cons, List.mem_cons]
      by_cases h1 : j = i.toNat <;> by_cases h2 : j ∈ rest.map Int.toNat <;>
        simp [h1, h2, Function.comp]

/-- The marking passes of two index lists of equal membership coincide. -/
theorem markWatched_mem_ext (idxs₁ idxs₂ : List Int) (instances : List Instance)
    (h : ∀ j : Nat, j ∈ idxs₁.map Int.toNat ↔ j ∈ idxs₂.map Int.toNat) :
    markWatched instances idxs₁ = markWatched instances idxs₂ := by
  apply List.ext_getElem?
  intro j
  rw [markWatched_getElem?, markWatched_getElem?]
  cases hj : instances[j]? with
  | none => simp
  | some inst =>
    simp only [Option.map_some']
    by_cases hm : j ∈ idxs₁.map Int.toNat
    · rw [if_pos hm, if_pos ((h j).mp hm)]
    · rw [if_neg hm, if_neg (fun hc => hm ((h j).mpr hc))]

/-- An out-of-range index anywhere in the list makes the loop fail. -/
theorem applyWatchLoop_error (idxs : List Int) (instances : List Instance)
    (h : ∃ i ∈ idxs, i < 0 ∨ (instances.length : Int) ≤ i) :
    ∃ msg, applyWatchLoop instances idxs = .error msg := by
  induction idxs generalizing instances with
  | nil => obtain ⟨i, hi, _⟩ := h; cases hi
  | cons i rest ih =>
    by_cases hbad : i < 0 ∨ (instances.length : Int) ≤ i
    · exact ⟨"parse watch: index out of range: " ++ toString i,
        by simp [applyWatchLoop, hbad]⟩
    · obtain ⟨x, hx, hxbad⟩ := h
      rcases List.mem_cons.mp hx with rfl | hxrest
      · exact absurd hxbad hbad
      · obtain ⟨msg, hmsg⟩ := ih (setWatchTrue instances i.toNat)
          ⟨x, hxrest, by rwa [setWatchTrue_length]⟩
        exact ⟨msg, by simp [applyWatchLoop, hbad, hmsg]⟩

/-- A token that does not parse as an integer anywhere in the part list
makes `parseIntsList` fail. -/
theorem parseIntsList_error (parts : List String)
    (h : ∃ p ∈ parts, trimSpace p ≠ "" ∧ ∃ e, atoi (trimSpace p) = .error e) :
    ∃ msg, parseIntsList parts = .error msg := by
  induction parts with
  | nil => obtain ⟨p, hp, _⟩ := h; cases hp
  | cons p ps ih =>
    by_cases hblank : trimSpace p = ""
    · obtain ⟨x, hx, hxne, he⟩ := h
      rcases List.mem_cons.mp hx with rfl | hxr
      · exact absurd hblank hxne
      · obtain ⟨msg, hmsg⟩ := ih ⟨x, hxr, hxne, he⟩
        exact ⟨msg, by simp [parseIntsList, hblank, hmsg]⟩
    · cases ha : atoi (trimSpace p) with
      | error e => exact ⟨"parse int: " ++ e, by simp [parseIntsList, hblank, ha]⟩
      | ok n =>
        obtain ⟨x, hx, hxne, e, he⟩ := h
        rcases List.mem_cons.mp hx with rfl | hxr
        · rw [ha] at he; cases he
        · obtain ⟨msg, hmsg⟩ := ih ⟨x, hxr, hxne, e, he⟩
          exact ⟨msg, by simp [parseIntsList, hblank, ha, hmsg]⟩

/-- Dropping while a predicate holds skips a leading block that
satisfies it wholesale. -/
theorem dropWhile_append_all {α : Type} (g : α → Bool) (sp x : List α)
    (h : ∀ c ∈ sp, g c = true) :
    (sp ++ x).dropWhile g = x.dropWhile g := by
  induction sp with
  | nil => rfl
  | cons c cs ih =>
    have hc : g c = true := h c (List.mem_cons_self c cs)
    simp only [List.cons_append, List.dropWhile_cons, hc, if_true]
    exact ih (fun d hd => h d (List.mem_cons_of_mem c hd))

/-- When the left list survives its own dropWhile, appending on the
right commutes with dropping on the left. -/
theorem dropWhile_append_ne_nil {α : Type} (g : α → Bool) (l y : List α)
    (h : l.dropWhile g ≠ []) :
    (l ++ y).dropWhile g = l.dropWhile g ++ y := by
  induction l with
  | nil => simp [List.dropWhile] at h
  | cons c cs ih =>
    cases hc : g c with
    | true =>
      have h2 : cs.dropWhile g ≠ [] := by simpa [List.dropWhile_cons, hc] using h
      simp only [List.cons_append, List.dropWhile_cons, hc, if_true]
      exact ih h2
    | false =>
      simp [List.dropWhile_cons, hc]

/-- Surrounding white space does not change the trimmed token. -/
theorem trimSpace_pad (sp₁ sp₂ : List Char) (s : String)
    (h₁ : ∀ c ∈ sp₁, goIsSpace c = true) (h₂ : ∀ c ∈ sp₂, goIsSpace c = true) :
    trimSpace ⟨sp₁ ++ s.data ++ sp₂⟩ = trimSpace s := by
  have hsuf :
      (((sp₁ ++ s.data ++ sp₂).dropWhile goIsSpace).reverse.dropWhile goIsSpace).reverse =
        ((s.data.dropWhile goIsSpace).reverse.dropWhile goIsSpace).reverse := by
    rw [List.append_assoc, dropWhile_append_all goIsSpace sp₁ _ h₁]
    by_cases hnil : s.data.dropWhile goIsSpace = []
    · have hall : ∀ c ∈ s.data, goIsSpace c = true := by
        simpa [List.dropWhile_eq_nil_iff] using hnil
      have hboth : (s.data ++ sp₂).dropWhile goIsSpace = [] := by
        rw [List.dropWhile_eq_nil_iff]
        intro x hx
        rcases List.mem_append.mp hx with hxl | hxr
        · exact hall x hxl
        · exact h₂ x hxr
      simp [hboth, hnil]
    · rw [dropWhile_append_ne_nil goIsSpace _ _ hnil, List.reverse_append,
        dropWhile_append_all goIsSpace sp₂.reverse _
          (fun c hc => h₂ c (List.mem_reverse.mp hc))]
  exact congrArg String.mk hsuf

/-- Claim C6: watch-set resolution. `""` and `"none"` mark nothing;
`"all"` marks every instance; a token that does not parse as an integer
fails the integer-list parse; an index below 0 or at or above the
instance count fails the loop with a range error; a blank token is
skipped; white space around a token is ignored; and any `applyWatch`
error makes `New` fail with the same error, returning no group. -/
theorem watch_set_resolution :
    (∀ instances : List Instance,
      applyWatch instances "" = .ok instances ∧
      applyWatch instances "none" = .ok instances) ∧
    (∀ instances : List Instance,
      applyWatch instances "all" =
        .ok (instances.map (fun inst => { inst with Watch := true }))) ∧
    (∀ s : String,
      (∃ p ∈ splitComma s, trimSpace p ≠ "" ∧ ∃ e, atoi (trimSpace p) = .error e) →
      ∃ msg, parseInts s = .error msg) ∧
    (∀ (instances : List Instance) (idxs : List Int),
      (∃ i ∈ idxs, i < 0 ∨ (instances.length : Int) ≤ i) →
      ∃ msg, applyWatchLoop instances idxs = .error msg) ∧
    (∀ (p : String) (ps : List String), trimSpace p = "" →
      parseIntsList (p :: ps) = parseIntsList ps) ∧
    (∀ (sp₁ sp₂ : List Char) (p : String) (ps : List String),
      (∀ c ∈ sp₁, goIsSpace c = true) → (∀ c ∈ sp₂, goIsSpace c = true) →
      parseIntsList (⟨sp₁ ++ p.data ++ sp₂⟩ :: ps) = parseIntsList (p :: ps)) ∧
    (∀ (path : String) (args : List String) (watch msg : String),
      applyWatch (buildInstances path args) watch = .error msg →
      New false (.ok path) args watch = .error msg) := by
  refine ⟨?_, ?_, ?_, ?_, ?_, ?_, ?_⟩
  · intro instances
    exact ⟨by simp [applyWatch], by simp [applyWatch]⟩
  · intro instances
    rw [applyWatch, if_neg (by simp), if_pos rfl]
  · intro s hs
    exact parseIntsList_error (splitComma s) hs
  · intro instances idxs h
    exact applyWatchLoop_error idxs instances h
  · intro p ps h
    simp [parseIntsList, h]
  · intro sp₁ sp₂ p ps h₁ h₂
    have hp := trimSpace_pad sp₁ sp₂ p h₁ h₂
    rw [List.append_assoc] at hp
    simp [parseIntsList, hp]
  · intro path args watch msg h
    simp [New, h]

/-- Concrete instantiation of `watch_set_resolution`: literal handling
on a one-instance list, a parse failure for `"1,x"`, a range failure
for index 5 on one instance, blank-token skipping, white space
trimming, and a failing construction for watch `"5"`. -/
theorem watch_set_resolution_witness :
    applyWatch [{ Name := "c", Args := [], Watch := false }] "none" =
      .ok [{ Name := "c", Args := [], Watch := false }] ∧
    applyWatch [{ Name := "c", Args := [], Watch := false }] "all" =
      .ok [{ Name := "c", Args := [], Watch := true }] ∧
    (∃ msg, parseInts "1,x" = .error msg) ∧
    (∃ msg, applyWatchLoop [{ Name := "c", Args := [], Watch := false }] [5] =
      .error msg) ∧
    parseIntsList ["", "1"] = parseIntsList ["1"] ∧
    parseIntsList [" 1 "] = parseIntsList ["1"] ∧
    New false (.ok "/bin/echo") [] "5" =
      .error "parse watch: index out of range: 5" := by
  refine ⟨?_, ?_, ?_, ?_, ?_, ?_, ?_⟩
  · exact (watch_set_resolution.1 _).2
  · have h := watch_set_resolution.2.1 [{ Name := "c", Args := [], Watch := false }]
    simpa using h
  · exact watch_set_resolution.2.2.1 "1,x"
      ⟨"x", by decide, by decide,
        ⟨"strconv.Atoi: parsing \"x\": invalid syntax", by decide⟩⟩
  · exact watch_set_resolution.2.2.2.1 _ [5] ⟨5, by decide, by decide⟩
  · exact watch_set_resolution.2.2.2.2.1 "" ["1"] (by decide)
  · have h := watch_set_resolution.2.2.2.2.2.1 [' '] [' '] "1" [] (by decide) (by decide)
    simpa using h
  · exact watch_set_resolution.2.2.2.2.2.2 "/bin/echo" [] "5" _ (by decide)

/-- Claim C10: marking the watch set only depends on which indices are
listed, not how often: with every index in range the loop succeeds, two
index lists of equal membership produce the same instances, and on two
instances the specification `"1,1"` behaves exactly like `"1"`. -/
theorem applyWatch_duplicate_indices :
    (∀ (instances : List Instance) (idxs₁ idxs₂ : List Int),
      (∀ i ∈ idxs₁, 0 ≤ i ∧ i < (instances.length : Int)) →
      (∀ i, i ∈ idxs₁ ↔ i ∈ idxs₂) →
      applyWatchLoop instances idxs₁ = .ok (markWatched instances idxs₁) ∧
      markWatched instances idxs₁ = markWatched instances idxs₂) ∧
    (∀ instances : List Instance, 2 ≤ instances.length →
      applyWatch instances "1,1" = applyWatch instances "1" ∧
      ∃ out, applyWatch instances "1,1" = .ok out) := by
  constructor
  · intro instances idxs₁ idxs₂ hb hmem
    refine ⟨applyWatchLoop_ok idxs₁ instances hb, ?_⟩
    apply markWatched_mem_ext
    intro j
    simp only [List.mem_map]
    constructor
    · rintro ⟨i, hi, rfl⟩
      exact ⟨i, (hmem i).mp hi, rfl⟩
    · rintro ⟨i, hi, rfl⟩
      exact ⟨i, (hmem i).mpr hi, rfl⟩
  · intro instances h2
    have hb1 : ∀ i ∈ ([1, 1] : List Int), 0 ≤ i ∧ i < (instances.length : Int) := by
      intro i hi
      rcases List.mem_cons.mp hi with rfl | hi2
      · omega
      · rcases List.mem_cons.mp hi2 with rfl | hi3
        · omega
        · cases hi3
    have hb2 : ∀ i ∈ ([1] : List Int), 0 ≤ i ∧ i < (instances.length : Int) := by
      intro i hi
      rcases List.mem_cons.mp hi with rfl | hi2
      · omega
      · cases hi2
    have hw1 : applyWatch instances "1,1" = applyWatchLoop instances [1, 1] := by
      rw [applyWatch, if_neg (by simp), if_neg (by simp),
        show parseInts "1,1" = .ok [1, 1] from by decide]
    have hw2 : applyWatch instances "1" = applyWatchLoop instances [1] := by
      rw [applyWatch, if_neg (by simp), if_neg (by simp),
        show parseInts "1" = .ok [1] from by decide]
    have heq : markWatched instances [1, 1] = markWatched instances [1] :=
      markWatched_mem_ext [1, 1] [1] instances (by intro j; simp)
    rw [hw1, hw2, applyWatchLoop_ok [1, 1] instances hb1, applyWatchLoop_ok [1] instances hb2,
      heq]
    exact ⟨rfl, ⟨markWatched instances [1], rfl⟩⟩

/-- Concrete instantiation of `applyWatch_duplicate_indices`: on a
two-instance list, `"1,1"` and `"1"` mark exactly instance 1. -/
theorem applyWatch_duplicate_indices_witness :
    applyWatch [{ Name := "c", Args := [], Watch := false },
        { Name := "c", Args := ["b"], Watch := false }] "1,1" =
      applyWatch [{ Name := "c", Args := [], Watch := false },
        { Name := "c", Args := ["b"], Watch := false }] "1" ∧
    applyWatchLoop [{ Name := "c", Args := [], Watch := false },
        { Name := "c", Args := ["b"], Watch := false }] [1, 1] =
      .ok [{ Name := "c", Args := [], Watch := false },
        { Name := "c", Args := ["b"], Watch := true }] := by
  constructor
  · exact (applyWatch_duplicate_indices.2 _ (by decide)).1
  · have h := (applyWatch_duplicate_indices.1
      [{ Name := "c", Args := [], Watch := false },
        { Name := "c", Args := ["b"], Watch := false }] [1, 1] [1]
      (by decide) (by simp)).1
    rw [h]
    decide

end Cmdgroup
